import Mathlib

/-
Verification of `mlir/lib/Dialect/Bufferization/Transforms/TensorCopyInsertion.cpp`:
a shallow embedding of the two `insertTensorCopies` entry points, the escape
annotation loop, and the conflict-resolution walk, together with proofs of the
specified properties.

The file embeds the code of `TensorCopyInsertion.cpp` directly.  The external
collaborators that the file calls but whose implementations live elsewhere in
the repository (`Operation::walk`, `analyzeOp`, `analyzeModuleOp`, the
`BufferizableOpInterface` methods `bufferizesToAllocation` and
`resolveConflicts`, and `cast<ModuleOp>`) are modelled from the spec as
explicit parameters (oracles) or, for the walk, as a recursive function
following the traversal the spec describes.
-/

set_option maxHeartbeats 1000000

namespace TCI

/-- The only fact the code queries about a result type is
`opResult.getType().isa<TensorType>()`, so a type is modelled by whether it is
a tensor type. -/
inductive MLIRType : Type where
  | tensor : MLIRType
  | nonTensor : MLIRType
  deriving DecidableEq

/-- `isa<TensorType>` on a result type. -/
def isTensorTy : MLIRType → Bool
  | MLIRType.tensor => true
  | MLIRType.nonTensor => false

/-- The attribute dictionary of an operation.  Only boolean-array attributes
(the escape attribute) are ever read or written by this code, so values are
`List Bool`. -/
abbrev AttrMap := List (String × List Bool)

/-- `BufferizationDialect::kEscapeAttrName`: the process-wide reserved
attribute name. -/
def kEscapeAttrName : String := "bufferization.escape"

/-- `op->hasAttr(name)`. -/
def hasAttr : AttrMap → String → Bool
  | [], _ => false
  | (k0, _) :: m, k => if k0 = k then true else hasAttr m k

/-- `op->getAttr(name)` restricted to boolean-array attributes. -/
def getAttr : AttrMap → String → Option (List Bool)
  | [], _ => none
  | (k0, v) :: m, k => if k0 = k then some v else getAttr m k

/-- `op->setAttr(name, value)`: replaces the existing entry or appends a new
one. -/
def setAttr : AttrMap → String → List Bool → AttrMap
  | [], k, v => [(k, v)]
  | (k0, v0) :: m, k, v =>
    if k0 = k then (k, v) :: m else (k0, v0) :: setAttr m k v

mutual
/-- An operation: a numeric identity (used to key the external oracles), the
operation name (used by `isa<ModuleOp>`), the list of result types, the
attribute dictionary, and the nested regions. -/
inductive Op : Type where
  | mk (opid : Nat) (name : String) (resultTypes : List MLIRType)
      (attrs : AttrMap) (regions : List Region) : Op

/-- A region: an ordered list of blocks. -/
inductive Region : Type where
  | mk (blocks : List Block) : Region

/-- A block: an ordered list of operations. -/
inductive Block : Type where
  | mk (ops : List Op) : Block
end

/-- The attribute dictionary of the root operation of a tree. -/
def rootAttrs : Op → AttrMap
  | Op.mk _ _ _ a _ => a

/-- The result types of the root operation of a tree. -/
def rootResultTypes : Op → List MLIRType
  | Op.mk _ _ t _ _ => t

/-- The name of the root operation of a tree. -/
def opName : Op → String
  | Op.mk _ n _ _ _ => n

/-- The `AnalysisState` as consumed by the resolution walk: its options record
(only `createDeallocs` is read) and the `isTensorYielded` oracle, keyed by the
producing operation id and the result index. -/
structure AnalysisState where
  createDeallocs : Bool
  isTensorYielded : Nat → Nat → Bool

/-- `OneShotBufferizationOptions`: the fields read by this code and by the
pass wrapper. -/
structure OneShotBufferizationOptions where
  allowReturnAllocs : Bool
  bufferizeFunctionBoundaries : Bool
  createDeallocs : Bool
  testAnalysisOnly : Bool

/-- Modelled from the spec: the external collaborators whose implementations
are not part of this file — the capability interface
(`dynCastBufferizableOp`, keyed by operation id; `bufferizesToAllocation`,
keyed by operation id and result index; `resolveConflicts`, abstracted to its
success verdict per operation id), and the two upstream analyses (`analyzeOp`
and `analyzeModuleOp`, each either failing or producing the
`isTensorYielded` facts of the analysis state). -/
structure Env where
  isBufferizableOp : Nat → Bool
  bufferizesToAllocation : Nat → Nat → Bool
  resolveConflictsOk : Nat → Bool
  analyzeOpResult : Option (Nat → Nat → Bool)
  analyzeModuleOpResult : Option (Nat → Nat → Bool)

/-- The loop over `op->getOpResults()` (source lines 60-70): builds the
escape vector and the `foundTensorResult` flag.  The second argument is the
index of the first result in the list. -/
def escapeLoop (env : Env) (state : AnalysisState) (opid : Nat) :
    List MLIRType → Nat → List Bool × Bool
  | [], _ => ([], false)
  | ty :: tys, i =>
    let rest := escapeLoop env state opid tys (i + 1)
    if !(isTensorTy ty) || !(env.bufferizesToAllocation opid i) then
      (false :: rest.1, rest.2)
    else
      ((!state.createDeallocs || state.isTensorYielded opid i) :: rest.1, true)

/-- The escape-annotation step (source lines 57-72): if the operation has no
escape attribute, run `escapeLoop` and attach the vector when some tensor
result bufferizes to an allocation. -/
def annotateOp (env : Env) (state : AnalysisState) (opid : Nat)
    (tys : List MLIRType) (attrs : AttrMap) : AttrMap :=
  if hasAttr attrs kEscapeAttrName then attrs
  else
    let r := escapeLoop env state opid tys 0
    if r.2 then setAttr attrs kEscapeAttrName r.1 else attrs

/-- The outcome of walking one piece of the tree: the rewritten piece, the
operation ids passed to the callback in visit order, the operation ids whose
`resolveConflicts` was invoked in call order, and whether the walk was
interrupted. -/
structure WalkOut (α : Type) where
  out : α
  visited : List Nat
  resolveCalls : List Nat
  interrupted : Bool

mutual
/-- Modelled from the spec: `Operation::walk` (not part of this file) applied
to the callback of the state-based `insertTensorCopies` (source lines 49-81).
Per the spec the traversal is pre-order — each operation is visited before
the operations nested inside its own regions, regions, blocks and operations
in definition order — and a callback answer of skip (a non-bufferizable
operation) still descends into the nested regions.  The callback itself is
embedded from the source: annotate the operation, then invoke its
`resolveConflicts`; a failure interrupts the whole walk immediately. -/
def walkOp (env : Env) (state : AnalysisState) : Op → WalkOut Op
  | Op.mk opid nm tys attrs rgs =>
    if env.isBufferizableOp opid = false then
      let r := walkRegionList env state rgs
      ⟨Op.mk opid nm tys attrs r.out, opid :: r.visited, r.resolveCalls,
        r.interrupted⟩
    else
      let attrs2 := annotateOp env state opid tys attrs
      if env.resolveConflictsOk opid = false then
        ⟨Op.mk opid nm tys attrs2 rgs, [opid], [opid], true⟩
      else
        let r := walkRegionList env state rgs
        ⟨Op.mk opid nm tys attrs2 r.out, opid :: r.visited,
          opid :: r.resolveCalls, r.interrupted⟩

/-- Walk the regions of an operation in order, aborting on interruption. -/
def walkRegionList (env : Env) (state : AnalysisState) :
    List Region → WalkOut (List Region)
  | [] => ⟨[], [], [], false⟩
  | rg :: rgs =>
    let r := walkRegion env state rg
    if r.interrupted then ⟨r.out :: rgs, r.visited, r.resolveCalls, true⟩
    else
      let rr := walkRegionList env state rgs
      ⟨r.out :: rr.out, r.visited ++ rr.visited,
        r.resolveCalls ++ rr.resolveCalls, rr.interrupted⟩

/-- Walk one region: its blocks in order. -/
def walkRegion (env : Env) (state : AnalysisState) : Region → WalkOut Region
  | Region.mk blks =>
    let r := walkBlockList env state blks
    ⟨Region.mk r.out, r.visited, r.resolveCalls, r.interrupted⟩

/-- Walk the blocks of a region in order, aborting on interruption. -/
def walkBlockList (env : Env) (state : AnalysisState) :
    List Block → WalkOut (List Block)
  | [] => ⟨[], [], [], false⟩
  | b :: bs =>
    let r := walkBlock env state b
    if r.interrupted then ⟨r.out :: bs, r.visited, r.resolveCalls, true⟩
    else
      let rr := walkBlockList env state bs
      ⟨r.out :: rr.out, r.visited ++ rr.visited,
        r.resolveCalls ++ rr.resolveCalls, rr.interrupted⟩

/-- Walk one block: its operations in order. -/
def walkBlock (env : Env) (state : AnalysisState) : Block → WalkOut Block
  | Block.mk os =>
    let r := walkOpList env state os
    ⟨Block.mk r.out, r.visited, r.resolveCalls, r.interrupted⟩

/-- Walk the operations of a block in order, aborting on interruption. -/
def walkOpList (env : Env) (state : AnalysisState) :
    List Op → WalkOut (List Op)
  | [] => ⟨[], [], [], false⟩
  | o :: os =>
    let r := walkOp env state o
    if r.interrupted then ⟨r.out :: os, r.visited, r.resolveCalls, true⟩
    else
      let rr := walkOpList env state os
      ⟨r.out :: rr.out, r.visited ++ rr.visited,
        r.resolveCalls ++ rr.resolveCalls, rr.interrupted⟩
end

mutual
/-- The pre-order listing of the operation ids of a tree: the root first,
then the operations of its regions, regions in order. -/
def preorderOp : Op → List Nat
  | Op.mk opid _ _ _ rgs => opid :: preorderRegionList rgs

/-- Pre-order listing of a list of regions. -/
def preorderRegionList : List Region → List Nat
  | [] => []
  | rg :: rgs => preorderRegion rg ++ preorderRegionList rgs

/-- Pre-order listing of one region: its blocks in order. -/
def preorderRegion : Region → List Nat
  | Region.mk blks => preorderBlockList blks

/-- Pre-order listing of a list of blocks. -/
def preorderBlockList : List Block → List Nat
  | [] => []
  | b :: bs => preorderBlock b ++ preorderBlockList bs

/-- Pre-order listing of one block: its operations in order. -/
def preorderBlock : Block → List Nat
  | Block.mk os => preorderOpList os

/-- Pre-order listing of a list of operations. -/
def preorderOpList : List Op → List Nat
  | [] => []
  | o :: os => preorderOp o ++ preorderOpList os
end

/-- The outcome of one `insertTensorCopies` invocation: the rewritten tree,
the visit and `resolveConflicts` traces, and the `LogicalResult`
(`success = true` means `success()`). -/
structure ResolveOutcome where
  tree : Op
  visited : List Nat
  resolveCalls : List Nat
  success : Bool

/-- The state-based entry point
`insertTensorCopies(Operation *op, const AnalysisState &state)`
(source lines 43-85): walk the tree with the annotate-then-resolve callback
and return `failure(result.wasInterrupted())`. -/
def insertTensorCopiesState (env : Env) (op : Op) (state : AnalysisState) :
    ResolveOutcome :=
  let r := walkOp env state op
  ⟨r.out, r.visited, r.resolveCalls, !r.interrupted⟩

/-- The operation name of `ModuleOp`. -/
def builtinModuleName : String := "builtin.module"

/-- `isa<ModuleOp>(op)`. -/
def isModuleOp (o : Op) : Bool := opName o = builtinModuleName

/-- The analysis phase of the options-based entry point (source lines 26-35):
`cast<ModuleOp>(op)` followed by `analyzeModuleOp` when function boundary
bufferization is enabled, otherwise `analyzeOp`.  The outer `none` models the
failed `cast<ModuleOp>` (undefined behavior on a non-module root); the inner
`Option` is the analysis verdict: `none` is analysis failure, `some yields`
the computed `isTensorYielded` facts. -/
def runAnalysis (env : Env) (op : Op)
    (options : OneShotBufferizationOptions) :
    Option (Option (Nat → Nat → Bool)) :=
  if options.bufferizeFunctionBoundaries then
    if isModuleOp op then some env.analyzeModuleOpResult else none
  else some env.analyzeOpResult

/-- The options-based entry point
`insertTensorCopies(Operation *op, const OneShotBufferizationOptions &options)`
(source lines 23-41): build the analysis state from the options, run the
analysis, propagate its failure, short-circuit on `testAnalysisOnly`, and
otherwise delegate to the state-based entry point.  The result is `none`
exactly when `cast<ModuleOp>` fails (undefined behavior). -/
def insertTensorCopiesOptions (env : Env) (op : Op)
    (options : OneShotBufferizationOptions) : Option ResolveOutcome :=
  match runAnalysis env op options with
  | none => none
  | some none => some ⟨op, [], [], false⟩
  | some (some yields) =>
    if options.testAnalysisOnly then some ⟨op, [], [], true⟩
    else some (insertTensorCopiesState env op ⟨options.createDeallocs, yields⟩)

/-- `a` is an initial segment of `b`. -/
def initSeg (a b : List Nat) : Prop := ∃ t, a ++ t = b


/-- Failure invariant of a walk outcome: when interrupted, the
`resolveConflicts` trace ends in the one failing operation, every earlier
call succeeded, and the failing operation is the last one visited; when not
interrupted, every `resolveConflicts` call succeeded. -/
def FailInv {α : Type} (env : Env) (r : WalkOut α) : Prop :=
  (r.interrupted = true → ∃ l k, r.resolveCalls = l ++ [k] ∧
      env.resolveConflictsOk k = false ∧
      (∀ j ∈ l, env.resolveConflictsOk j = true) ∧
      ∃ v, r.visited = v ++ [k]) ∧
  (r.interrupted = false → ∀ j ∈ r.resolveCalls, env.resolveConflictsOk j = true)

def yW : Nat → Nat → Bool := fun _ _ => false
def envW : Env := ⟨fun _ => true, fun _ _ => true, fun _ => true, some yW, some yW⟩
def envSkip : Env := ⟨fun k => decide (0 < k), fun _ _ => true, fun _ => true, some yW, some yW⟩
def envFail : Env := ⟨fun _ => true, fun _ _ => true, fun _ => false, some yW, some yW⟩
def envNoAnalysis : Env := ⟨fun _ => true, fun _ _ => true, fun _ => true, none, none⟩
def stW : AnalysisState := ⟨true, yW⟩
def nmW : String := "test.op"
def opW : Op := Op.mk 0 nmW [MLIRType.tensor] [] []
def optAnalysisOnly : OneShotBufferizationOptions := ⟨true, false, true, true⟩
def optPlain : OneShotBufferizationOptions := ⟨true, false, true, false⟩
def optModule : OneShotBufferizationOptions := ⟨true, true, true, false⟩


theorem escapeLoop_cons (env : Env) (state : AnalysisState) (opid : Nat)
    (ty0 : MLIRType) (tys : List MLIRType) (i : Nat) :
    escapeLoop env state opid (ty0 :: tys) i =
      ((if isTensorTy ty0 && env.bufferizesToAllocation opid i then
          !state.createDeallocs || state.isTensorYielded opid i
        else false) :: (escapeLoop env state opid tys (i + 1)).1,
       (isTensorTy ty0 && env.bufferizesToAllocation opid i) ||
         (escapeLoop env state opid tys (i + 1)).2) := by
  cases hty : isTensorTy ty0 <;> cases ha : env.bufferizesToAllocation opid i <;>
    simp [escapeLoop, hty, ha]

theorem escapeLoop_length (env : Env) (state : AnalysisState) (opid : Nat) :
    ∀ (tys : List MLIRType) (i : Nat),
      (escapeLoop env state opid tys i).1.length = tys.length := by
  intro tys
  induction tys with
  | nil => intro i; simp [escapeLoop]
  | cons ty tys ih => intro i; simp [escapeLoop_cons, ih]

theorem escapeLoop_get (env : Env) (state : AnalysisState) (opid : Nat) :
    ∀ (tys : List MLIRType) (i j : Nat) (ty : MLIRType), tys[j]? = some ty →
      (escapeLoop env state opid tys i).1[j]? =
        some (if isTensorTy ty && env.bufferizesToAllocation opid (i + j) then
          !state.createDeallocs || state.isTensorYielded opid (i + j)
        else false) := by
  intro tys
  induction tys with
  | nil => intro i j ty h; simp at h
  | cons ty0 tys ih =>
    intro i j ty h
    cases j with
    | zero =>
      have h0 : ty0 = ty := by simpa using h
      subst h0
      simp [escapeLoop_cons]
    | succ j =>
      simp only [List.getElem?_cons_succ] at h
      have hrec := ih (i + 1) j ty h
      have hidx : i + 1 + j = i + (j + 1) := by omega
      rw [hidx] at hrec
      simp [escapeLoop_cons, hrec]

theorem escapeLoop_found (env : Env) (state : AnalysisState) (opid : Nat) :
    ∀ (tys : List MLIRType) (i : Nat),
      (escapeLoop env state opid tys i).2 = true ↔
        ∃ j ty, tys[j]? = some ty ∧ isTensorTy ty = true ∧
          env.bufferizesToAllocation opid (i + j) = true := by
  intro tys
  induction tys with
  | nil => intro i; simp [escapeLoop]
  | cons ty0 tys ih =>
    intro i
    rw [escapeLoop_cons]
    simp only [Bool.or_eq_true, Bool.and_eq_true, ih]
    constructor
    · rintro (⟨h1, h2⟩ | ⟨j, ty, hget, h1, h2⟩)
      · exact ⟨0, ty0, by simp, h1, by simpa using h2⟩
      · refine ⟨j + 1, ty, by simpa using hget, h1, ?_⟩
        have : i + (j + 1) = i + 1 + j := by omega
        rw [this]; exact h2
    · rintro ⟨j, ty, hget, h1, h2⟩
      cases j with
      | zero =>
        have h0 : ty0 = ty := by simpa using hget
        subst h0
        exact Or.inl ⟨h1, by simpa using h2⟩
      | succ j =>
        refine Or.inr ⟨j, ty, by simpa using hget, h1, ?_⟩
        have : i + 1 + j = i + (j + 1) := by omega
        rw [this]; exact h2

theorem hasAttr_setAttr (k : String) (v : List Bool) :
    ∀ m : AttrMap, hasAttr (setAttr m k v) k = true := by
  intro m
  induction m with
  | nil => simp [setAttr, hasAttr]
  | cons p m ih =>
    obtain ⟨k0, v0⟩ := p
    by_cases h : k0 = k <;> simp [setAttr, hasAttr, h, ih]

theorem getAttr_setAttr (k : String) (v : List Bool) :
    ∀ m : AttrMap, getAttr (setAttr m k v) k = some v := by
  intro m
  induction m with
  | nil => simp [setAttr, getAttr]
  | cons p m ih =>
    obtain ⟨k0, v0⟩ := p
    by_cases h : k0 = k <;> simp [setAttr, getAttr, h, ih]

theorem getAttr_of_hasAttr_false (k : String) :
    ∀ m : AttrMap, hasAttr m k = false → getAttr m k = none := by
  intro m
  induction m with
  | nil => intro _; simp [getAttr]
  | cons p m ih =>
    obtain ⟨k0, v0⟩ := p
    intro hm
    by_cases h : k0 = k
    · simp [hasAttr, h] at hm
    · simp [hasAttr, h] at hm
      simp [getAttr, h, ih hm]



theorem isBufferizableOp_true_of_not_false (env : Env) (opid : Nat)
    (h : ¬ env.isBufferizableOp opid = false) :
    env.isBufferizableOp opid = true := by
  cases hx : env.isBufferizableOp opid
  · exact absurd hx h
  · rfl

mutual
theorem walkOp_calls (env : Env) (state : AnalysisState) (o : Op) :
    (walkOp env state o).resolveCalls =
      (walkOp env state o).visited.filter env.isBufferizableOp := by
  cases o with
  | mk opid nm tys attrs rgs =>
    have h := walkRegionList_calls env state rgs
    by_cases hb : env.isBufferizableOp opid = false
    · simp [walkOp, hb, h]
    · have hb2 := isBufferizableOp_true_of_not_false env opid hb
      by_cases hr : env.resolveConflictsOk opid = false
      · simp [walkOp, hb2, hr]
      · simp [walkOp, hb2, hr, h]

theorem walkRegionList_calls (env : Env) (state : AnalysisState)
    (rgs : List Region) :
    (walkRegionList env state rgs).resolveCalls =
      (walkRegionList env state rgs).visited.filter env.isBufferizableOp := by
  cases rgs with
  | nil => simp [walkRegionList]
  | cons rg rgs =>
    have h1 := walkRegion_calls env state rg
    have h2 := walkRegionList_calls env state rgs
    by_cases hi : (walkRegion env state rg).interrupted
    · simp [walkRegionList, hi, h1]
    · simp [walkRegionList, hi, h1, h2, List.filter_append]

theorem walkRegion_calls (env : Env) (state : AnalysisState) (rg : Region) :
    (walkRegion env state rg).resolveCalls =
      (walkRegion env state rg).visited.filter env.isBufferizableOp := by
  cases rg with
  | mk blks =>
    have h := walkBlockList_calls env state blks
    simp [walkRegion, h]

theorem walkBlockList_calls (env : Env) (state : AnalysisState)
    (bs : List Block) :
    (walkBlockList env state bs).resolveCalls =
      (walkBlockList env state bs).visited.filter env.isBufferizableOp := by
  cases bs with
  | nil => simp [walkBlockList]
  | cons b bs =>
    have h1 := walkBlock_calls env state b
    have h2 := walkBlockList_calls env state bs
    by_cases hi : (walkBlock env state b).interrupted
    · simp [walkBlockList, hi, h1]
    · simp [walkBlockList, hi, h1, h2, List.filter_append]

theorem walkBlock_calls (env : Env) (state : AnalysisState) (b : Block) :
    (walkBlock env state b).resolveCalls =
      (walkBlock env state b).visited.filter env.isBufferizableOp := by
  cases b with
  | mk os =>
    have h := walkOpList_calls env state os
    simp [walkBlock, h]

theorem walkOpList_calls (env : Env) (state : AnalysisState) (os : List Op) :
    (walkOpList env state os).resolveCalls =
      (walkOpList env state os).visited.filter env.isBufferizableOp := by
  cases os with
  | nil => simp [walkOpList]
  | cons o os =>
    have h1 := walkOp_calls env state o
    have h2 := walkOpList_calls env state os
    by_cases hi : (walkOp env state o).interrupted
    · simp [walkOpList, hi, h1]
    · simp [walkOpList, hi, h1, h2, List.filter_append]
end



mutual
theorem walkOp_pre (env : Env) (state : AnalysisState) (o : Op) :
    ∃ t, (walkOp env state o).visited ++ t = preorderOp o ∧
      ((walkOp env state o).interrupted = false → t = []) := by
  cases o with
  | mk opid nm tys attrs rgs =>
    by_cases hb : env.isBufferizableOp opid = false
    · obtain ⟨t, ht, htn⟩ := walkRegionList_pre env state rgs
      exact ⟨t, by simp [walkOp, hb, preorderOp, ht],
        fun hx => htn (by simpa [walkOp, hb] using hx)⟩
    · have hb2 := isBufferizableOp_true_of_not_false env opid hb
      by_cases hr : env.resolveConflictsOk opid = false
      · refine ⟨preorderRegionList rgs, by simp [walkOp, hb2, hr, preorderOp], ?_⟩
        simp [walkOp, hb2, hr]
      · obtain ⟨t, ht, htn⟩ := walkRegionList_pre env state rgs
        exact ⟨t, by simp [walkOp, hb2, hr, preorderOp, ht],
          fun hx => htn (by simpa [walkOp, hb2, hr] using hx)⟩

theorem walkRegionList_pre (env : Env) (state : AnalysisState)
    (rgs : List Region) :
    ∃ t, (walkRegionList env state rgs).visited ++ t = preorderRegionList rgs ∧
      ((walkRegionList env state rgs).interrupted = false → t = []) := by
  cases rgs with
  | nil => exact ⟨[], by simp [walkRegionList, preorderRegionList], fun _ => rfl⟩
  | cons rg rgs =>
    obtain ⟨t1, ht1, htn1⟩ := walkRegion_pre env state rg
    by_cases hi : (walkRegion env state rg).interrupted
    · refine ⟨t1 ++ preorderRegionList rgs, ?_, ?_⟩
      · simp [walkRegionList, hi, preorderRegionList, ← ht1]
      · simp [walkRegionList, hi]
    · obtain ⟨t2, ht2, htn2⟩ := walkRegionList_pre env state rgs
      have hv1 : (walkRegion env state rg).visited = preorderRegion rg := by
        have := htn1 (by simpa using hi)
        rw [this] at ht1; simpa using ht1
      refine ⟨t2, ?_, ?_⟩
      · simp [walkRegionList, hi, preorderRegionList, hv1, ht2]
      · intro hint
        exact htn2 (by simpa [walkRegionList, hi] using hint)

theorem walkRegion_pre (env : Env) (state : AnalysisState) (rg : Region) :
    ∃ t, (walkRegion env state rg).visited ++ t = preorderRegion rg ∧
      ((walkRegion env state rg).interrupted = false → t = []) := by
  cases rg with
  | mk blks =>
    obtain ⟨t, ht, htn⟩ := walkBlockList_pre env state blks
    exact ⟨t, by simp [walkRegion, preorderRegion, ht],
      fun hx => htn (by simpa [walkRegion] using hx)⟩

theorem walkBlockList_pre (env : Env) (state : AnalysisState)
    (bs : List Block) :
    ∃ t, (walkBlockList env state bs).visited ++ t = preorderBlockList bs ∧
      ((walkBlockList env state bs).interrupted = false → t = []) := by
  cases bs with
  | nil => exact ⟨[], by simp [walkBlockList, preorderBlockList], fun _ => rfl⟩
  | cons b bs =>
    obtain ⟨t1, ht1, htn1⟩ := walkBlock_pre env state b
    by_cases hi : (walkBlock env state b).interrupted
    · refine ⟨t1 ++ preorderBlockList bs, ?_, ?_⟩
      · simp [walkBlockList, hi, preorderBlockList, ← ht1]
      · simp [walkBlockList, hi]
    · obtain ⟨t2, ht2, htn2⟩ := walkBlockList_pre env state bs
      have hv1 : (walkBlock env state b).visited = preorderBlock b := by
        have := htn1 (by simpa using hi)
        rw [this] at ht1; simpa using ht1
      refine ⟨t2, ?_, ?_⟩
      · simp [walkBlockList, hi, preorderBlockList, hv1, ht2]
      · intro hint
        exact htn2 (by simpa [walkBlockList, hi] using hint)

theorem walkBlock_pre (env : Env) (state : AnalysisState) (b : Block) :
    ∃ t, (walkBlock env state b).visited ++ t = preorderBlock b ∧
      ((walkBlock env state b).interrupted = false → t = []) := by
  cases b with
  | mk os =>
    obtain ⟨t, ht, htn⟩ := walkOpList_pre env state os
    exact ⟨t, by simp [walkBlock, preorderBlock, ht],
      fun hx => htn (by simpa [walkBlock] using hx)⟩

theorem walkOpList_pre (env : Env) (state : AnalysisState) (os : List Op) :
    ∃ t, (walkOpList env state os).visited ++ t = preorderOpList os ∧
      ((walkOpList env state os).interrupted = false → t = []) := by
  cases os with
  | nil => exact ⟨[], by simp [walkOpList, preorderOpList], fun _ => rfl⟩
  | cons o os =>
    obtain ⟨t1, ht1, htn1⟩ := walkOp_pre env state o
    by_cases hi : (walkOp env state o).interrupted
    · refine ⟨t1 ++ preorderOpList os, ?_, ?_⟩
      · simp [walkOpList, hi, preorderOpList, ← ht1]
      · simp [walkOpList, hi]
    · obtain ⟨t2, ht2, htn2⟩ := walkOpList_pre env state os
      have hv1 : (walkOp env state o).visited = preorderOp o := by
        have := htn1 (by simpa using hi)
        rw [this] at ht1; simpa using ht1
      refine ⟨t2, ?_, ?_⟩
      · simp [walkOpList, hi, preorderOpList, hv1, ht2]
      · intro hint
        exact htn2 (by simpa [walkOpList, hi] using hint)
end


mutual
theorem walkOp_fail (env : Env) (state : AnalysisState) (o : Op) :
    FailInv env (walkOp env state o) := by
  cases o with
  | mk opid nm tys attrs rgs =>
    by_cases hb : env.isBufferizableOp opid = false
    · obtain ⟨ih1, ih2⟩ := walkRegionList_fail env state rgs
      refine ⟨fun hi => ?_, fun hno => ?_⟩
      · have hi2 : (walkRegionList env state rgs).interrupted = true := by
          simpa [walkOp, hb] using hi
        obtain ⟨l, k, hc, hk, hl, v, hv⟩ := ih1 hi2
        refine ⟨l, k, by simpa [walkOp, hb] using hc, hk, hl, opid :: v, ?_⟩
        simp [walkOp, hb, hv]
      · intro j hj
        exact ih2 (by simpa [walkOp, hb] using hno) j
          (by simpa [walkOp, hb] using hj)
    · have hb2 := isBufferizableOp_true_of_not_false env opid hb
      by_cases hr : env.resolveConflictsOk opid = false
      · refine ⟨fun _ => ⟨[], opid, by simp [walkOp, hb2, hr], hr, by simp,
          [], by simp [walkOp, hb2, hr]⟩, fun hno => ?_⟩
        simp [walkOp, hb2, hr] at hno
      · have hr2 : env.resolveConflictsOk opid = true := by
          cases hx : env.resolveConflictsOk opid
          · exact absurd hx hr
          · rfl
        obtain ⟨ih1, ih2⟩ := walkRegionList_fail env state rgs
        refine ⟨fun hi => ?_, fun hno => ?_⟩
        · have hi2 : (walkRegionList env state rgs).interrupted = true := by
            simpa [walkOp, hb2, hr] using hi
          obtain ⟨l, k, hc, hk, hl, v, hv⟩ := ih1 hi2
          refine ⟨opid :: l, k, by simp [walkOp, hb2, hr, hc], hk, ?_,
            opid :: v, by simp [walkOp, hb2, hr, hv]⟩
          intro j hj
          rcases List.mem_cons.mp hj with hj | hj
          · subst hj; exact hr2
          · exact hl j hj
        · intro j hj
          have hj2 : j ∈ opid :: (walkRegionList env state rgs).resolveCalls := by
            simpa [walkOp, hb2, hr] using hj
          rcases List.mem_cons.mp hj2 with hj3 | hj3
          · subst hj3; exact hr2
          · exact ih2 (by simpa [walkOp, hb2, hr] using hno) j hj3

theorem walkRegionList_fail (env : Env) (state : AnalysisState)
    (rgs : List Region) :
    FailInv env (walkRegionList env state rgs) := by
  cases rgs with
  | nil => exact ⟨fun hi => by simp [walkRegionList] at hi,
      fun _ => by simp [walkRegionList]⟩
  | cons rg rgs =>
    obtain ⟨ihA1, ihA2⟩ := walkRegion_fail env state rg
    by_cases hi : (walkRegion env state rg).interrupted
    · refine ⟨fun _ => ?_, fun hno => ?_⟩
      · obtain ⟨l, k, hc, hk, hl, v, hv⟩ := ihA1 hi
        exact ⟨l, k, by simpa [walkRegionList, hi] using hc, hk, hl, v,
          by simpa [walkRegionList, hi] using hv⟩
      · simp [walkRegionList, hi] at hno
    · obtain ⟨ihB1, ihB2⟩ := walkRegionList_fail env state rgs
      have hifalse : (walkRegion env state rg).interrupted = false := by
        simpa using hi
      refine ⟨fun hint => ?_, fun hno => ?_⟩
      · have hint2 : (walkRegionList env state rgs).interrupted = true := by
          simpa [walkRegionList, hi] using hint
        obtain ⟨l, k, hc, hk, hl, v, hv⟩ := ihB1 hint2
        refine ⟨(walkRegion env state rg).resolveCalls ++ l, k, ?_, hk, ?_,
          (walkRegion env state rg).visited ++ v, ?_⟩
        · simp [walkRegionList, hi, hc]
        · intro j hj
          rcases List.mem_append.mp hj with hj | hj
          · exact ihA2 hifalse j hj
          · exact hl j hj
        · simp [walkRegionList, hi, hv]
      · intro j hj
        have hno2 : (walkRegionList env state rgs).interrupted = false := by
          simpa [walkRegionList, hi] using hno
        have hj2 : j ∈ (walkRegion env state rg).resolveCalls ++
            (walkRegionList env state rgs).resolveCalls := by
          simpa [walkRegionList, hi] using hj
        rcases List.mem_append.mp hj2 with hj3 | hj3
        · exact ihA2 hifalse j hj3
        · exact ihB2 hno2 j hj3

theorem walkRegion_fail (env : Env) (state : AnalysisState) (rg : Region) :
    FailInv env (walkRegion env state rg) := by
  cases rg with
  | mk blks =>
    obtain ⟨ih1, ih2⟩ := walkBlockList_fail env state blks
    refine ⟨fun hi => ?_, fun hno => ?_⟩
    · obtain ⟨l, k, hc, hk, hl, v, hv⟩ := ih1 (by simpa [walkRegion] using hi)
      exact ⟨l, k, by simpa [walkRegion] using hc, hk, hl, v,
        by simpa [walkRegion] using hv⟩
    · intro j hj
      exact ih2 (by simpa [walkRegion] using hno) j
        (by simpa [walkRegion] using hj)

theorem walkBlockList_fail (env : Env) (state : AnalysisState)
    (bs : List Block) :
    FailInv env (walkBlockList env state bs) := by
  cases bs with
  | nil => exact ⟨fun hi => by simp [walkBlockList] at hi,
      fun _ => by simp [walkBlockList]⟩
  | cons b bs =>
    obtain ⟨ihA1, ihA2⟩ := walkBlock_fail env state b
    by_cases hi : (walkBlock env state b).interrupted
    · refine ⟨fun _ => ?_, fun hno => ?_⟩
      · obtain ⟨l, k, hc, hk, hl, v, hv⟩ := ihA1 hi
        exact ⟨l, k, by simpa [walkBlockList, hi] using hc, hk, hl, v,
          by simpa [walkBlockList, hi] using hv⟩
      · simp [walkBlockList, hi] at hno
    · obtain ⟨ihB1, ihB2⟩ := walkBlockList_fail env state bs
      have hifalse : (walkBlock env state b).interrupted = false := by
        simpa using hi
      refine ⟨fun hint => ?_, fun hno => ?_⟩
      · have hint2 : (walkBlockList env state bs).interrupted = true := by
          simpa [walkBlockList, hi] using hint
        obtain ⟨l, k, hc, hk, hl, v, hv⟩ := ihB1 hint2
        refine ⟨(walkBlock env state b).resolveCalls ++ l, k, ?_, hk, ?_,
          (walkBlock env state b).visited ++ v, ?_⟩
        · simp [walkBlockList, hi, hc]
        · intro j hj
          rcases List.mem_append.mp hj with hj | hj
          · exact ihA2 hifalse j hj
          · exact hl j hj
        · simp [walkBlockList, hi, hv]
      · intro j hj
        have hno2 : (walkBlockList env state bs).interrupted = false := by
          simpa [walkBlockList, hi] using hno
        have hj2 : j ∈ (walkBlock env state b).resolveCalls ++
            (walkBlockList env state bs).resolveCalls := by
          simpa [walkBlockList, hi] using hj
        rcases List.mem_append.mp hj2 with hj3 | hj3
        · exact ihA2 hifalse j hj3
        · exact ihB2 hno2 j hj3

theorem walkBlock_fail (env : Env) (state : AnalysisState) (b : Block) :
    FailInv env (walkBlock env state b) := by
  cases b with
  | mk os =>
    obtain ⟨ih1, ih2⟩ := walkOpList_fail env state os
    refine ⟨fun hi => ?_, fun hno => ?_⟩
    · obtain ⟨l, k, hc, hk, hl, v, hv⟩ := ih1 (by simpa [walkBlock] using hi)
      exact ⟨l, k, by simpa [walkBlock] using hc, hk, hl, v,
        by simpa [walkBlock] using hv⟩
    · intro j hj
      exact ih2 (by simpa [walkBlock] using hno) j
        (by simpa [walkBlock] using hj)

theorem walkOpList_fail (env : Env) (state : AnalysisState) (os : List Op) :
    FailInv env (walkOpList env state os) := by
  cases os with
  | nil => exact ⟨fun hi => by simp [walkOpList] at hi,
      fun _ => by simp [walkOpList]⟩
  | cons o os =>
    obtain ⟨ihA1, ihA2⟩ := walkOp_fail env state o
    by_cases hi : (walkOp env state o).interrupted
    · refine ⟨fun _ => ?_, fun hno => ?_⟩
      · obtain ⟨l, k, hc, hk, hl, v, hv⟩ := ihA1 hi
        exact ⟨l, k, by simpa [walkOpList, hi] using hc, hk, hl, v,
          by simpa [walkOpList, hi] using hv⟩
      · simp [walkOpList, hi] at hno
    · obtain ⟨ihB1, ihB2⟩ := walkOpList_fail env state os
      have hifalse : (walkOp env state o).interrupted = false := by
        simpa using hi
      refine ⟨fun hint => ?_, fun hno => ?_⟩
      · have hint2 : (walkOpList env state os).interrupted = true := by
          simpa [walkOpList, hi] using hint
        obtain ⟨l, k, hc, hk, hl, v, hv⟩ := ihB1 hint2
        refine ⟨(walkOp env state o).resolveCalls ++ l, k, ?_, hk, ?_,
          (walkOp env state o).visited ++ v, ?_⟩
        · simp [walkOpList, hi, hc]
        · intro j hj
          rcases List.mem_append.mp hj with hj | hj
          · exact ihA2 hifalse j hj
          · exact hl j hj
        · simp [walkOpList, hi, hv]
      · intro j hj
        have hno2 : (walkOpList env state os).interrupted = false := by
          simpa [walkOpList, hi] using hno
        have hj2 : j ∈ (walkOp env state o).resolveCalls ++
            (walkOpList env state os).resolveCalls := by
          simpa [walkOpList, hi] using hj
        rcases List.mem_append.mp hj2 with hj3 | hj3
        · exact ihA2 hifalse j hj3
        · exact ihB2 hno2 j hj3
end



theorem walkOp_root_attrs (env : Env) (state : AnalysisState) (opid : Nat)
    (nm : String) (tys : List MLIRType) (attrs : AttrMap) (rgs : List Region)
    (hb : env.isBufferizableOp opid = true) :
    rootAttrs (walkOp env state (Op.mk opid nm tys attrs rgs)).out =
      annotateOp env state opid tys attrs := by
  by_cases hr : env.resolveConflictsOk opid = false <;>
    simp [walkOp, hb, hr, rootAttrs]

theorem walkOp_root_attrs_skip (env : Env) (state : AnalysisState)
    (opid : Nat) (nm : String) (tys : List MLIRType) (attrs : AttrMap)
    (rgs : List Region) (hb : env.isBufferizableOp opid = false) :
    rootAttrs (walkOp env state (Op.mk opid nm tys attrs rgs)).out = attrs := by
  simp [walkOp, hb, rootAttrs]

/-- C1: for an operation visited by the resolution walk that lacks an escape
attribute, every tensor-typed result that bufferizes to a fresh allocation
gets a recorded escape entry that is true whenever `createDeallocs` is false
regardless of yieldedness, and equals exactly `isTensorYielded` of the result
when `createDeallocs` is true. -/
theorem escapeEntryFormula (env : Env) (state : AnalysisState) (opid : Nat)
    (nm : String) (tys : List MLIRType) (attrs : AttrMap) (rgs : List Region)
    (i : Nat) (ty : MLIRType)
    (hb : env.isBufferizableOp opid = true)
    (hna : hasAttr attrs kEscapeAttrName = false)
    (hty : tys[i]? = some ty) (ht : isTensorTy ty = true)
    (hal : env.bufferizesToAllocation opid i = true) :
    ∃ l, getAttr (rootAttrs
          (insertTensorCopiesState env (Op.mk opid nm tys attrs rgs)
            state).tree) kEscapeAttrName = some l ∧
      l[i]? = some (!state.createDeallocs || state.isTensorYielded opid i) ∧
      (state.createDeallocs = false → l[i]? = some true) ∧
      (state.createDeallocs = true →
        l[i]? = some (state.isTensorYielded opid i)) := by
  have hroot : rootAttrs
      (insertTensorCopiesState env (Op.mk opid nm tys attrs rgs) state).tree =
      annotateOp env state opid tys attrs := by
    have := walkOp_root_attrs env state opid nm tys attrs rgs hb
    simpa [insertTensorCopiesState] using this
  have hfound : (escapeLoop env state opid tys 0).2 = true := by
    rw [escapeLoop_found]
    exact ⟨i, ty, hty, ht, by simpa using hal⟩
  have hann : annotateOp env state opid tys attrs =
      setAttr attrs kEscapeAttrName (escapeLoop env state opid tys 0).1 := by
    simp [annotateOp, hna, hfound]
  have hget := escapeLoop_get env state opid tys 0 i ty hty
  refine ⟨(escapeLoop env state opid tys 0).1, ?_, ?_, ?_, ?_⟩
  · rw [hroot, hann, getAttr_setAttr]
  · simpa [ht, hal] using hget
  · intro hcd; simpa [ht, hal, hcd] using hget
  · intro hcd; simpa [ht, hal, hcd] using hget

/-- C4: escape annotation is idempotent — an operation already carrying the
escape attribute is left entirely unchanged, and running the annotator twice
without other mutation equals running it once. -/
theorem escapeAnnotationIdempotent (env : Env) (state : AnalysisState)
    (opid : Nat) (tys : List MLIRType) (attrs : AttrMap) :
    (hasAttr attrs kEscapeAttrName = true →
      annotateOp env state opid tys attrs = attrs) ∧
    annotateOp env state opid tys (annotateOp env state opid tys attrs) =
      annotateOp env state opid tys attrs := by
  constructor
  · intro h; simp [annotateOp, h]
  · by_cases h : hasAttr attrs kEscapeAttrName = true
    · simp [annotateOp, h]
    · by_cases hf : (escapeLoop env state opid tys 0).2 = true
      · have h1 : annotateOp env state opid tys attrs =
            setAttr attrs kEscapeAttrName (escapeLoop env state opid tys 0).1 := by
          simp [annotateOp, h, hf]
        rw [h1]
        simp [annotateOp, hasAttr_setAttr]
      · have h1 : annotateOp env state opid tys attrs = attrs := by
          simp [annotateOp, h, hf]
        rw [h1]; exact h1

/-- C5: for a visited bufferizable operation without a pre-existing escape
attribute, the annotator attaches an escape attribute iff at least one result
is a tensor-typed allocation-producing result; when attached, the vector has
exactly one entry per result in result order and every non-tensor or
non-allocating result entry is false; when no result qualifies, the attribute
map is unchanged. -/
theorem escapeAttrAttachIff (env : Env) (state : AnalysisState) (opid : Nat)
    (tys : List MLIRType) (attrs : AttrMap)
    (hna : hasAttr attrs kEscapeAttrName = false) :
    (hasAttr (annotateOp env state opid tys attrs) kEscapeAttrName = true ↔
      ∃ j ty, tys[j]? = some ty ∧ isTensorTy ty = true ∧
        env.bufferizesToAllocation opid j = true) ∧
    (∀ l, getAttr (annotateOp env state opid tys attrs) kEscapeAttrName =
        some l →
      l.length = tys.length ∧
      ∀ j ty, tys[j]? = some ty →
        isTensorTy ty = false ∨ env.bufferizesToAllocation opid j = false →
        l[j]? = some false) ∧
    ((¬ ∃ j ty, tys[j]? = some ty ∧ isTensorTy ty = true ∧
        env.bufferizesToAllocation opid j = true) →
      annotateOp env state opid tys attrs = attrs) := by
  have hiff : (escapeLoop env state opid tys 0).2 = true ↔
      ∃ j ty, tys[j]? = some ty ∧ isTensorTy ty = true ∧
        env.bufferizesToAllocation opid j = true := by
    simpa using escapeLoop_found env state opid tys 0
  refine ⟨?_, ?_, ?_⟩
  · by_cases hf : (escapeLoop env state opid tys 0).2 = true
    · have h1 : annotateOp env state opid tys attrs =
          setAttr attrs kEscapeAttrName (escapeLoop env state opid tys 0).1 := by
        simp [annotateOp, hna, hf]
      rw [h1]
      simp [hasAttr_setAttr]
      exact hiff.mp hf
    · have h1 : annotateOp env state opid tys attrs = attrs := by
        simp [annotateOp, hna, hf]
      rw [h1, hna]
      constructor
      · intro hx
        exact absurd hx (by simp)
      · intro hex
        exact absurd (hiff.mpr hex) hf
  · intro l hl
    by_cases hf : (escapeLoop env state opid tys 0).2 = true
    · have h1 : annotateOp env state opid tys attrs =
          setAttr attrs kEscapeAttrName (escapeLoop env state opid tys 0).1 := by
        simp [annotateOp, hna, hf]
      rw [h1, getAttr_setAttr] at hl
      have hleq : l = (escapeLoop env state opid tys 0).1 := by
        exact (Option.some.injEq _ _ ▸ hl).symm
      subst hleq
      refine ⟨escapeLoop_length env state opid tys 0, ?_⟩
      intro j ty hget hdisj
      have := escapeLoop_get env state opid tys 0 j ty hget
      rcases hdisj with hd | hd <;> simpa [hd] using this
    · have h1 : annotateOp env state opid tys attrs = attrs := by
        simp [annotateOp, hna, hf]
      rw [h1, getAttr_of_hasAttr_false kEscapeAttrName attrs hna] at hl
      exact absurd hl (by simp)
  · intro hne
    have hf : (escapeLoop env state opid tys 0).2 = false := by
      cases hx : (escapeLoop env state opid tys 0).2
      · rfl
      · exact absurd (hiff.mp hx) hne
    simp [annotateOp, hna, hf]



/-- C2: the conflict-resolution driver visits the operations of the tree in
pre-order — the visit trace is an initial segment of the pre-order listing
(parents before the operations nested in their own regions, left-to-right
within a region), and equals the whole listing when the walk succeeds. -/
theorem walkVisitsPreorder (env : Env) (op : Op) (state : AnalysisState) :
    initSeg (insertTensorCopiesState env op state).visited (preorderOp op) ∧
    ((insertTensorCopiesState env op state).success = true →
      (insertTensorCopiesState env op state).visited = preorderOp op) := by
  obtain ⟨t, ht, htn⟩ := walkOp_pre env state op
  constructor
  · exact ⟨t, by simpa [insertTensorCopiesState] using ht⟩
  · intro hs
    have hint : (walkOp env state op).interrupted = false := by
      simpa [insertTensorCopiesState] using hs
    have := htn hint
    subst this
    simpa [insertTensorCopiesState] using ht

/-- C3: the state-based entry point returns failure iff the
`resolveConflicts` call of some visited bufferizable operation fails, and on
the first failure the walk aborts immediately: the call trace ends at the
failing operation, every earlier call succeeded, the failing operation is the
last one visited, nothing later in traversal order is invoked, and the trace
of already-applied calls is retained (no rollback). -/
theorem failFastOnResolveConflicts (env : Env) (op : Op)
    (state : AnalysisState) :
    ((insertTensorCopiesState env op state).success = false ↔
      ∃ k ∈ (insertTensorCopiesState env op state).resolveCalls,
        env.resolveConflictsOk k = false) ∧
    ((insertTensorCopiesState env op state).success = false →
      ∃ l k, (insertTensorCopiesState env op state).resolveCalls = l ++ [k] ∧
        env.resolveConflictsOk k = false ∧
        (∀ j ∈ l, env.resolveConflictsOk j = true) ∧
        (∃ v, (insertTensorCopiesState env op state).visited = v ++ [k]) ∧
        initSeg (insertTensorCopiesState env op state).visited
          (preorderOp op)) := by
  obtain ⟨hf1, hf2⟩ := walkOp_fail env state op
  obtain ⟨t, ht, htn⟩ := walkOp_pre env state op
  have hsucc : (insertTensorCopiesState env op state).success =
      !(walkOp env state op).interrupted := by
    simp [insertTensorCopiesState]
  constructor
  · constructor
    · intro hs
      have hint : (walkOp env state op).interrupted = true := by
        rw [hsucc] at hs
        simpa using hs
      obtain ⟨l, k, hc, hk, hl, v, hv⟩ := hf1 hint
      refine ⟨k, ?_, hk⟩
      simp [insertTensorCopiesState, hc]
    · rintro ⟨k, hk, hkf⟩
      cases hx : (walkOp env state op).interrupted
      · have hall := hf2 hx
        have hk2 : k ∈ (walkOp env state op).resolveCalls := by
          simpa [insertTensorCopiesState] using hk
        exact absurd (hall k hk2) (by simp [hkf])
      · rw [hsucc, hx]
        rfl
  · intro hs
    have hint : (walkOp env state op).interrupted = true := by
      rw [hsucc] at hs
      simpa using hs
    obtain ⟨l, k, hc, hk, hl, v, hv⟩ := hf1 hint
    refine ⟨l, k, by simpa [insertTensorCopiesState] using hc, hk, hl,
      ⟨v, by simpa [insertTensorCopiesState] using hv⟩,
      ⟨t, by simpa [insertTensorCopiesState] using ht⟩⟩

/-- C6: a visited operation that does not implement the bufferizable
capability interface is skipped — it is neither annotated nor asked to
resolve conflicts, the skip does not cause failure — but the walk still
visits every operation nested inside its regions. -/
theorem skipNonBufferizable (env : Env) (state : AnalysisState) (opid : Nat)
    (nm : String) (tys : List MLIRType) (attrs : AttrMap) (rgs : List Region)
    (hb : env.isBufferizableOp opid = false) :
    rootAttrs (insertTensorCopiesState env (Op.mk opid nm tys attrs rgs)
        state).tree = attrs ∧
    opid ∉ (insertTensorCopiesState env (Op.mk opid nm tys attrs rgs)
        state).resolveCalls ∧
    (∀ k ∈ (insertTensorCopiesState env (Op.mk opid nm tys attrs rgs)
        state).resolveCalls, env.isBufferizableOp k = true) ∧
    ((insertTensorCopiesState env (Op.mk opid nm tys attrs rgs)
        state).success = false →
      ∃ k ∈ (insertTensorCopiesState env (Op.mk opid nm tys attrs rgs)
          state).resolveCalls, env.resolveConflictsOk k = false) ∧
    ((insertTensorCopiesState env (Op.mk opid nm tys attrs rgs)
        state).success = true →
      (insertTensorCopiesState env (Op.mk opid nm tys attrs rgs)
        state).visited = opid :: preorderRegionList rgs) := by
  have hcalls := walkOp_calls env state (Op.mk opid nm tys attrs rgs)
  obtain ⟨hf1, hf2⟩ := walkOp_fail env state (Op.mk opid nm tys attrs rgs)
  obtain ⟨t, ht, htn⟩ := walkOp_pre env state (Op.mk opid nm tys attrs rgs)
  have hmem : ∀ k ∈ (insertTensorCopiesState env
      (Op.mk opid nm tys attrs rgs) state).resolveCalls,
      env.isBufferizableOp k = true := by
    intro k hk
    have hk2 : k ∈ (walkOp env state (Op.mk opid nm tys attrs rgs)).resolveCalls := by
      simpa [insertTensorCopiesState] using hk
    rw [hcalls] at hk2
    exact (List.mem_filter.mp hk2).2
  refine ⟨?_, ?_, hmem, ?_, ?_⟩
  · have := walkOp_root_attrs_skip env state opid nm tys attrs rgs hb
    simpa [insertTensorCopiesState] using this
  · intro hmem2
    have := hmem opid hmem2
    rw [hb] at this
    exact absurd this (by simp)
  · intro hs
    have hint : (walkOp env state (Op.mk opid nm tys attrs rgs)).interrupted = true := by
      have : (insertTensorCopiesState env (Op.mk opid nm tys attrs rgs)
          state).success = !(walkOp env state (Op.mk opid nm tys attrs rgs)).interrupted := by
        simp [insertTensorCopiesState]
      rw [this] at hs
      simpa using hs
    obtain ⟨l, k, hc, hk, hl, v, hv⟩ := hf1 hint
    exact ⟨k, by simp [insertTensorCopiesState, hc], hk⟩
  · intro hs
    have hint : (walkOp env state (Op.mk opid nm tys attrs rgs)).interrupted = false := by
      have : (insertTensorCopiesState env (Op.mk opid nm tys attrs rgs)
          state).success = !(walkOp env state (Op.mk opid nm tys attrs rgs)).interrupted := by
        simp [insertTensorCopiesState]
      rw [this] at hs
      simpa using hs
    have := htn hint
    subst this
    have hpre : (walkOp env state (Op.mk opid nm tys attrs rgs)).visited =
        preorderOp (Op.mk opid nm tys attrs rgs) := by simpa using ht
    simpa [insertTensorCopiesState, preorderOp] using hpre

/-- C7: when `testAnalysisOnly` is true and the analysis succeeds, the
options-based entry point returns success immediately after analysis: the
tree is unchanged (no escape attributes attached, no copies inserted) and the
annotator and conflict-resolution walk are never invoked (empty traces). -/
theorem testAnalysisOnlyShortCircuits (env : Env) (op : Op)
    (options : OneShotBufferizationOptions) (y : Nat → Nat → Bool)
    (h1 : options.testAnalysisOnly = true)
    (h2 : runAnalysis env op options = some (some y)) :
    insertTensorCopiesOptions env op options =
      some (ResolveOutcome.mk op [] [] true) := by
  simp [insertTensorCopiesOptions, h2, h1]

/-- C8: if the upstream analysis fails (module analysis when
`bufferizeFunctionBoundaries` is true, per `runAnalysis`, otherwise
single-scope analysis), the options-based entry point propagates the failure
immediately: the result is failure, the tree is unchanged, and the resolution
phase never starts (empty traces). -/
theorem analysisFailurePropagates (env : Env) (op : Op)
    (options : OneShotBufferizationOptions)
    (h : runAnalysis env op options = some none) :
    insertTensorCopiesOptions env op options =
      some (ResolveOutcome.mk op [] [] false) := by
  simp [insertTensorCopiesOptions, h]

/-- C9: both entry points share one resolution routine — after a successful
analysis with `testAnalysisOnly` false, the options-based entry point
produces exactly the outcome of the state-based entry point on the same root
with the analysis state built from those options. -/
theorem entryPointsShareResolution (env : Env) (op : Op)
    (options : OneShotBufferizationOptions) (y : Nat → Nat → Bool)
    (h1 : options.testAnalysisOnly = false)
    (h2 : runAnalysis env op options = some (some y)) :
    insertTensorCopiesOptions env op options =
      some (insertTensorCopiesState env op
        (AnalysisState.mk options.createDeallocs y)) := by
  simp [insertTensorCopiesOptions, h2, h1]

/-- C10: when `bufferizeFunctionBoundaries` is true the options-based entry
point requires a module root: for a module root the `cast<ModuleOp>` failure
branch is unreachable (the call is defined), and for a non-module root the
call is not safe (modelled as `none`). -/
theorem moduleCastPrecondition (env : Env) (op : Op)
    (options : OneShotBufferizationOptions)
    (h : options.bufferizeFunctionBoundaries = true) :
    (isModuleOp op = true →
      (insertTensorCopiesOptions env op options).isSome = true) ∧
    (isModuleOp op = false →
      insertTensorCopiesOptions env op options = none) := by
  constructor
  · intro hm
    cases hy : env.analyzeModuleOpResult with
    | none =>
      simp [insertTensorCopiesOptions, runAnalysis, h, hm, hy]
    | some y =>
      by_cases hta : options.testAnalysisOnly = true <;>
        simp [insertTensorCopiesOptions, runAnalysis, h, hm, hy, hta]
  · intro hm
    simp [insertTensorCopiesOptions, runAnalysis, h, hm]


theorem escapeEntryFormulaWitness :
    envW.isBufferizableOp 0 = true ∧
    ∃ l, getAttr (rootAttrs
          (insertTensorCopiesState envW (Op.mk 0 nmW [MLIRType.tensor] [] [])
            stW).tree) kEscapeAttrName = some l ∧
      l[0]? = some (!stW.createDeallocs || stW.isTensorYielded 0 0) ∧
      (stW.createDeallocs = false → l[0]? = some true) ∧
      (stW.createDeallocs = true → l[0]? = some (stW.isTensorYielded 0 0)) :=
  ⟨rfl, escapeEntryFormula envW stW 0 nmW [MLIRType.tensor] [] [] 0
    MLIRType.tensor rfl rfl rfl rfl rfl⟩

theorem walkVisitsPreorderWitness :
    initSeg (insertTensorCopiesState envW opW stW).visited (preorderOp opW) ∧
    ((insertTensorCopiesState envW opW stW).success = true →
      (insertTensorCopiesState envW opW stW).visited = preorderOp opW) :=
  walkVisitsPreorder envW opW stW

theorem failFastOnResolveConflictsWitness :
    ((insertTensorCopiesState envFail opW stW).success = false ↔
      ∃ k ∈ (insertTensorCopiesState envFail opW stW).resolveCalls,
        envFail.resolveConflictsOk k = false) ∧
    ((insertTensorCopiesState envFail opW stW).success = false →
      ∃ l k, (insertTensorCopiesState envFail opW stW).resolveCalls =
          l ++ [k] ∧
        envFail.resolveConflictsOk k = false ∧
        (∀ j ∈ l, envFail.resolveConflictsOk j = true) ∧
        (∃ v, (insertTensorCopiesState envFail opW stW).visited = v ++ [k]) ∧
        initSeg (insertTensorCopiesState envFail opW stW).visited
          (preorderOp opW)) :=
  failFastOnResolveConflicts envFail opW stW

theorem escapeAnnotationIdempotentWitness :
    (hasAttr [] kEscapeAttrName = true →
      annotateOp envW stW 0 [MLIRType.tensor] [] = []) ∧
    annotateOp envW stW 0 [MLIRType.tensor]
        (annotateOp envW stW 0 [MLIRType.tensor] []) =
      annotateOp envW stW 0 [MLIRType.tensor] [] :=
  escapeAnnotationIdempotent envW stW 0 [MLIRType.tensor] []

theorem escapeAttrAttachIffWitness :
    (hasAttr (annotateOp envW stW 0 [MLIRType.tensor] []) kEscapeAttrName =
        true ↔
      ∃ j ty, [MLIRType.tensor][j]? = some ty ∧ isTensorTy ty = true ∧
        envW.bufferizesToAllocation 0 j = true) ∧
    (∀ l, getAttr (annotateOp envW stW 0 [MLIRType.tensor] [])
        kEscapeAttrName = some l →
      l.length = [MLIRType.tensor].length ∧
      ∀ j ty, [MLIRType.tensor][j]? = some ty →
        isTensorTy ty = false ∨ envW.bufferizesToAllocation 0 j = false →
        l[j]? = some false) ∧
    ((¬ ∃ j ty, [MLIRType.tensor][j]? = some ty ∧ isTensorTy ty = true ∧
        envW.bufferizesToAllocation 0 j = true) →
      annotateOp envW stW 0 [MLIRType.tensor] [] = []) :=
  escapeAttrAttachIff envW stW 0 [MLIRType.tensor] [] rfl

theorem skipNonBufferizableWitness :
    rootAttrs (insertTensorCopiesState envSkip
        (Op.mk 0 nmW [MLIRType.tensor] [] []) stW).tree = [] ∧
    0 ∉ (insertTensorCopiesState envSkip
        (Op.mk 0 nmW [MLIRType.tensor] [] []) stW).resolveCalls ∧
    (∀ k ∈ (insertTensorCopiesState envSkip
        (Op.mk 0 nmW [MLIRType.tensor] [] []) stW).resolveCalls,
      envSkip.isBufferizableOp k = true) ∧
    ((insertTensorCopiesState envSkip
        (Op.mk 0 nmW [MLIRType.tensor] [] []) stW).success = false →
      ∃ k ∈ (insertTensorCopiesState envSkip
          (Op.mk 0 nmW [MLIRType.tensor] [] []) stW).resolveCalls,
        envSkip.resolveConflictsOk k = false) ∧
    ((insertTensorCopiesState envSkip
        (Op.mk 0 nmW [MLIRType.tensor] [] []) stW).success = true →
      (insertTensorCopiesState envSkip
        (Op.mk 0 nmW [MLIRType.tensor] [] []) stW).visited =
        0 :: preorderRegionList []) :=
  skipNonBufferizable envSkip stW 0 nmW [MLIRType.tensor] [] [] rfl

theorem testAnalysisOnlyShortCircuitsWitness :
    insertTensorCopiesOptions envW opW optAnalysisOnly =
      some (ResolveOutcome.mk opW [] [] true) :=
  testAnalysisOnlyShortCircuits envW opW optAnalysisOnly yW rfl rfl

theorem analysisFailurePropagatesWitness :
    insertTensorCopiesOptions envNoAnalysis opW optPlain =
      some (ResolveOutcome.mk opW [] [] false) :=
  analysisFailurePropagates envNoAnalysis opW optPlain rfl

theorem entryPointsShareResolutionWitness :
    insertTensorCopiesOptions envW opW optPlain =
      some (insertTensorCopiesState envW opW
        (AnalysisState.mk optPlain.createDeallocs yW)) :=
  entryPointsShareResolution envW opW optPlain yW rfl rfl

theorem moduleCastPreconditionWitness :
    (isModuleOp opW = true →
      (insertTensorCopiesOptions envW opW optModule).isSome = true) ∧
    (isModuleOp opW = false →
      insertTensorCopiesOptions envW opW optModule = none) :=
  moduleCastPrecondition envW opW optModule rfl


end TCI